import Mathlib

/-!
Shallow embedding of the TODO-list web application (`main.py`).

The application is a Flask app over SQLAlchemy with three tables
(`User`, `ListTODO`, `Task`) and one handler per route.  We embed the
persistent store as lists of rows kept in primary-key insertion order
(SQLite returns rows in rowid order and autoincrement assigns max+1),
and each handler as a pure function from store (and form data) to the
updated store and the data the handler passes to its template.

A handler that lets an uncaught Python exception escape (e.g. an
`AttributeError` from using the `None` that `.scalar()` returns for an
absent id, or an `IndexError` from the positional update loop) is
modelled as `HResult.serverError`: Flask turns the exception into a
500 server-error page, and since `db.session.commit()` was never
reached the store is unchanged.  `HResult.notFound` models the
404 response that `db.get_or_404` (used only by the `load_user`
session callback) would produce; it is part of the response space so
that "fails with a 404-style response" is expressible.
-/

namespace TodoApp

/-- A calendar date as produced by `datetime.strptime(date, "%Y-%m-%d")`. -/
structure PDate where
  year : Nat
  month : Nat
  day : Nat
deriving DecidableEq, Repr

def leapYear (y : Nat) : Bool :=
  (y % 4 == 0 && y % 100 != 0) || y % 400 == 0

def daysInMonth (y m : Nat) : Nat :=
  if m == 2 then (if leapYear y then 29 else 28)
  else if m == 4 || m == 6 || m == 9 || m == 11 then 30
  else 31

/-- Split a character list at every dash, like Python `s.split("-")`. -/
def splitDash : List Char → List (List Char)
  | [] => [[]]
  | c :: rest =>
    if c = '-' then [] :: splitDash rest
    else
      match splitDash rest with
      | g :: gs => (c :: g) :: gs
      | [] => [[c]]

/-- Numeric value of a digit string. -/
def digitsVal (cs : List Char) : Nat :=
  cs.foldl (fun n c => n * 10 + (c.toNat - 48)) 0

/-- `datetime.strptime(s, "%Y-%m-%d")`: `%Y` matches exactly four digits,
`%m` and `%d` one or two digits, the whole string must be consumed, and the
`datetime` constructor validates the day against the month (and `year ≥ 1`).
Returns `none` where Python raises `ValueError`. -/
def parseDate (s : String) : Option PDate :=
  match splitDash s.toList with
  | [ys, ms, ds] =>
    if ys.length == 4 && ys.all (·.isDigit)
        && 1 ≤ ms.length && ms.length ≤ 2 && ms.all (·.isDigit)
        && 1 ≤ ds.length && ds.length ≤ 2 && ds.all (·.isDigit) then
      let y := digitsVal ys
      let m := digitsVal ms
      let d := digitsVal ds
      if 1 ≤ y && 1 ≤ m && m ≤ 12 && 1 ≤ d && d ≤ daysInMonth y m then
        some ⟨y, m, d⟩
      else none
    else none
  | _ => none

/-- Row of table `User` (`main.py` class `User`). -/
structure User where
  id : Nat
  email : String
  password : String
  name : String
deriving DecidableEq, Repr

/-- Row of table `ListTODO` (`main.py` class `ListTODO`);
`author_id` is the FK to `User.id` (nullable column). -/
structure ListTODO where
  id : Nat
  name : String
  author_id : Option Nat
deriving DecidableEq, Repr

/-- Row of table `Task` (`main.py` class `Task`);
`tasks_list` is the FK to `ListTODO.id` (nullable column),
`deadline` is a nullable date column. -/
structure Task where
  id : Nat
  done : Bool
  description : String
  tasks_list : Option Nat
  deadline : Option PDate
deriving DecidableEq, Repr

/-- The three tables, rows in rowid (= insertion) order. -/
structure Store where
  users : List User
  lists : List ListTODO
  tasks : List Task
deriving DecidableEq, Repr

/-- SQLite autoincrement: next rowid is max existing + 1. -/
def nextUserId (s : Store) : Nat := (s.users.map (·.id)).foldr max 0 + 1

def nextListId (s : Store) : Nat := (s.lists.map (·.id)).foldr max 0 + 1

def nextTaskId (s : Store) : Nat := (s.tasks.map (·.id)).foldr max 0 + 1

/-- Response space of a handler: a normal response carrying the data handed
to the template, a 404 page, or the 500 page Flask produces for an uncaught
exception (in which case no commit happened, so the store is unchanged). -/
inductive HResult (α : Type) where
  | ok : α → HResult α
  | notFound : HResult α
  | serverError : HResult α
deriving DecidableEq, Repr

/-- Result of the `/register` handler on a validated POST. -/
inductive RegResult where
  | renderForm (warning : Option String)
  | redirectHome
deriving DecidableEq, Repr

/-- `register` (`main.py` lines 85-106), validated-POST path.
`hash` stands for `generate_password_hash` (library call, kept abstract).
Returns the store and session after the request and the response. -/
def register (hash : String → String) (s : Store) (session : Option Nat)
    (name email password : String) : Store × Option Nat × RegResult :=
  if s.users.any (fun u => u.email == email) then
    (s, session, .renderForm (some "This email already exists"))
  else
    let uid := nextUserId s
    let u : User := ⟨uid, email, hash password, name⟩
    ({ s with users := s.users ++ [u] }, some uid, .redirectHome)

/-- Result of the `/login` handler on a validated POST. -/
inductive LoginResult where
  | redirectToLogin (flashMsg : String)
  | renderLoginForm (flashMsg : String)
  | redirectHome
deriving DecidableEq, Repr

/-- The flash message carried by a login response, if any. -/
def LoginResult.flashOf : LoginResult → Option String
  | .redirectToLogin m => some m
  | .renderLoginForm m => some m
  | .redirectHome => none

/-- `login` (`main.py` lines 109-130), validated-POST path.
`check` stands for `check_password_hash` (library call, kept abstract).
The store is never written; returns the session after the request and
the response. -/
def login (check : String → String → Bool) (s : Store) (session : Option Nat)
    (email password : String) : Option Nat × LoginResult :=
  match s.users.find? (fun u => u.email == email) with
  | none => (session, .redirectToLogin "That email does not exist, please try again.")
  | some u =>
    if check u.password password then
      (some u.id, .redirectHome)
    else
      (session, .renderLoginForm "Invalid email or password, please try again.")

/-- `create_list` (`main.py` lines 139-160), POST path behind
`@login_required`: `uid` is `current_user.id`, `today` is
`dt.today().strftime("%Y/%m/%d")`.  Creates the list (first commit) and
then the seed task (second commit); returns the new store and the list
passed to `create-tasks.html`. -/
def create_list (s : Store) (uid : Nat) (today description : String) :
    Store × ListTODO :=
  let newList : ListTODO := ⟨nextListId s, "My to-do list " ++ today, some uid⟩
  let s1 : Store := { s with lists := s.lists ++ [newList] }
  let newTask : Task := ⟨nextTaskId s1, false, description, some newList.id, none⟩
  ({ s1 with tasks := s1.tasks ++ [newTask] }, newList)

/-- `all_task` (`main.py` lines 163-166): a plain select, `.scalar()`
being `None` when the id is absent; the handler renders unconditionally
with whatever it got. -/
def all_task (s : Store) (list_id : Nat) : Option ListTODO :=
  s.lists.find? (fun l => l.id == list_id)

/-- `add_task` (`main.py` lines 169-180): builds a `Task` whose
`parent_list` is the select result (possibly `None`), adds, commits, and
renders `new_task.parent_list`.  Returns the new store and the FK the new
task ended up with (`none` when the list id was absent — the task is still
created and committed). -/
def add_task (s : Store) (list_id : Nat) (next_task : String) :
    Store × Option Nat :=
  let parent := (s.lists.find? (fun l => l.id == list_id)).map (·.id)
  let newTask : Task := ⟨nextTaskId s, false, next_task, parent, none⟩
  ({ s with tasks := s.tasks ++ [newTask] }, parent)

/-- The relationship `list_to_update.tasks`: rows of `Task` whose FK is
this list, in rowid order. -/
def listTasks (s : Store) (list_id : Nat) : List Task :=
  s.tasks.filter (fun t => t.tasks_list == some list_id)

/-- `[task.id for task in list_to_update.tasks if task.done == 0]`
(`main.py` line 189). -/
def notDoneIds (s : Store) (list_id : Nat) : List Nat :=
  ((listTasks s list_id).filter (fun t => !t.done)).map (·.id)

/-- `task_to_complete.done = True` for every task object selected by id
(the select is global — not restricted to the list). -/
def setTaskDone (ts : List Task) (tid : Nat) : List Task :=
  ts.map (fun t => if t.id == tid then { t with done := true } else t)

/-- The `done` loop (`main.py` lines 190-193): each submitted id is
selected globally and its `done` set to `True`; an id matching no row
makes `.scalar()` return `None` and the assignment raise
`AttributeError` (`none` here). -/
def applyDone (ts : List Task) : List Nat → Option (List Task)
  | [] => some ts
  | tid :: rest =>
    if ts.any (fun t => t.id == tid) then applyDone (setTaskDone ts tid) rest
    else none

/-- Python `list.index(v)`: index of the first occurrence of `v`.
(Total here; in the handler it is only called with `v` an element of
the list, where Python cannot raise.) -/
def firstIdx (l : List String) (v : String) : Nat :=
  match l with
  | [] => 0
  | x :: xs => if x == v then 0 else firstIdx xs v + 1

/-- `task_to_update.description = descriptions[index]` applied to the
selected task object (all rows carrying its id). -/
def touchDesc (tid : Nat) (desc : String) (t : Task) : Task :=
  if t.id == tid then { t with description := desc } else t

/-- Description plus deadline overwrite for the selected task object. -/
def touchDescDl (tid : Nat) (desc : String) (pd : PDate) (t : Task) : Task :=
  if t.id == tid then { t with description := desc, deadline := some pd } else t

/-- One iteration of the deadline/description loop (`main.py` lines
198-204) for loop variable `date`:
`index = due_to_dates.index(date)` (first occurrence in the FULL list),
task `tasks_to_update[index]` is selected, its description overwritten
with `descriptions[index]`, and, when `date` is non-empty, its deadline
overwritten with `strptime(date, "%Y-%m-%d")`.  `none` models the
uncaught `IndexError` (either array too short) or `ValueError` (bad
date), or the impossible absent-id select. -/
def overwriteStep (due_to_dates : List String) (tasks_to_update : List Nat)
    (descriptions : List String) (ts : List Task) (date : String) :
    Option (List Task) :=
  match tasks_to_update[firstIdx due_to_dates date]?,
      descriptions[firstIdx due_to_dates date]? with
  | some tid, some desc =>
    if ts.any (fun t => t.id == tid) then
      if date == "" then
        some (ts.map (touchDesc tid desc))
      else
        match parseDate date with
        | some d => some (ts.map (touchDescDl tid desc d))
        | none => none
    else none
  | _, _ => none

/-- `for date in due_to_dates: ...` — the loop runs over the elements of
`due_to_dates` in order, while `index` is always computed against the
full list (first occurrence). -/
def overwriteLoop (due_to_dates : List String) (tasks_to_update : List Nat)
    (descriptions : List String) (ts : List Task) :
    List String → Option (List Task)
  | [] => some ts
  | date :: rest =>
    match overwriteStep due_to_dates tasks_to_update descriptions ts date with
    | some ts1 => overwriteLoop due_to_dates tasks_to_update descriptions ts1 rest
    | none => none

def applyOverwrites (ts : List Task) (tasks_to_update : List Nat)
    (due_to_dates descriptions : List String) : Option (List Task) :=
  overwriteLoop due_to_dates tasks_to_update descriptions ts due_to_dates

/-- The form data reaching `update_list`: `name` (`form.get`, `None` when
the field is absent), the multi-value fields `done`, `deadline`,
`description` (`form.getlist`, `[]` when absent).  The `done` values are
id strings; SQLite's type affinity makes `Task.id == "3"` match row 3,
so they are embedded as the numbers they denote. -/
structure UpdateForm where
  name : Option String
  tasksDone : List Nat
  dueToDates : List String
  descriptions : List String
deriving DecidableEq, Repr

/-- `update_list` (`main.py` lines 183-211).  An absent list id makes
`.scalar()` return `None` and the later attribute accesses raise
(`serverError`).  Note `tasks_to_update` is computed from the store
BEFORE the `done` loop mutates any task.  The single commit is at the
end, so any raising path leaves the store unchanged.  On success returns
the new store and the `completed=progress` flag passed to the template. -/
def update_list (s : Store) (list_id : Nat) (form : UpdateForm) :
    HResult (Store × Bool) :=
  match s.lists.find? (fun l => l.id == list_id) with
  | none => .serverError
  | some lst =>
    let renamed := match form.name with
      | some n => { lst with name := n }
      | none => lst
    let lists1 := s.lists.map (fun l => if l.id == list_id then renamed else l)
    let tasks_to_update := notDoneIds s list_id
    match applyDone s.tasks form.tasksDone with
    | none => .serverError
    | some ts1 =>
      match applyOverwrites ts1 tasks_to_update form.dueToDates form.descriptions with
      | none => .serverError
      | some ts2 =>
        let progress := (ts2.filter (fun t => t.tasks_list == some list_id)).all (·.done)
        .ok ({ s with lists := lists1, tasks := ts2 }, progress)

/-- `delete_list` (`main.py` lines 221-226): `.scalar()` then
`db.session.delete`; deleting `None` raises (`serverError`).  The
`tasks` relationship has no delete cascade, so on flush SQLAlchemy
nulls out the FK of the list's tasks — the rows survive, orphaned. -/
def delete_list (s : Store) (list_id : Nat) : HResult Store :=
  match s.lists.find? (fun l => l.id == list_id) with
  | none => .serverError
  | some _ =>
    .ok { s with
      lists := s.lists.filter (fun l => !(l.id == list_id)),
      tasks := s.tasks.map (fun t =>
        if t.tasks_list == some list_id then { t with tasks_list := none } else t) }

/-- `true` when the task's FK names an existing list. -/
def taskHasParent (s : Store) (t : Task) : Bool :=
  s.lists.any (fun l => some l.id == t.tasks_list)

/-- The invariant "every Task belongs to an existing List". -/
def allTasksParented (s : Store) : Bool :=
  s.tasks.all (taskHasParent s)

/-! ### Concrete stores and forms used to instantiate the theorems -/

/-- A store with one user, one list and two not-yet-done tasks. -/
def storeA : Store :=
  { users := [{ id := 1, email := "a@b.c", password := "hash1", name := "Alice" }],
    lists := [{ id := 1, name := "L", author_id := some 1 }],
    tasks := [{ id := 1, done := false, description := "x", tasks_list := some 1, deadline := none },
              { id := 2, done := false, description := "y", tasks_list := some 1, deadline := none }] }

/-- A bulk-update submission whose two deadline values are equal while the
two descriptions differ. -/
def formDup : UpdateForm :=
  { name := none, tasksDone := [],
    dueToDates := ["2024-01-01", "2024-01-01"], descriptions := ["a", "b"] }

/-- What `update_list` actually leaves behind on `storeA`/`formDup`:
both iterations hit index 0, so task 1 is written twice and task 2 keeps
its old description `"y"`. -/
def storeADupResult : Store :=
  { users := [{ id := 1, email := "a@b.c", password := "hash1", name := "Alice" }],
    lists := [{ id := 1, name := "L", author_id := some 1 }],
    tasks := [{ id := 1, done := false, description := "a", tasks_list := some 1,
                deadline := some ⟨2024, 1, 1⟩ },
              { id := 2, done := false, description := "y", tasks_list := some 1,
                deadline := none }] }

/-- `storeA` after `delete_list 1`: the list row is gone but both task
rows survive with their FK nulled out. -/
def storeAOrphaned : Store :=
  { users := [{ id := 1, email := "a@b.c", password := "hash1", name := "Alice" }],
    lists := [],
    tasks := [{ id := 1, done := false, description := "x", tasks_list := none, deadline := none },
              { id := 2, done := false, description := "y", tasks_list := none, deadline := none }] }

def emptyStore : Store := { users := [], lists := [], tasks := [] }

/-- A bulk-update submission with distinct deadlines that also marks
task 2 as done in the same request. -/
def formDistinct : UpdateForm :=
  { name := none, tasksDone := [2],
    dueToDates := ["2024-01-01", "2024-01-02"], descriptions := ["a", "b"] }

/-- A bulk-update submission marking both tasks of `storeA` as done. -/
def formMarkAll : UpdateForm :=
  { name := none, tasksDone := [1, 2], dueToDates := [], descriptions := [] }

/-- `storeA` after `formMarkAll`: both tasks done, everything else as was. -/
def storeAMarkedAll : Store :=
  { users := [{ id := 1, email := "a@b.c", password := "hash1", name := "Alice" }],
    lists := [{ id := 1, name := "L", author_id := some 1 }],
    tasks := [{ id := 1, done := true, description := "x", tasks_list := some 1, deadline := none },
              { id := 2, done := true, description := "y", tasks_list := some 1, deadline := none }] }

/-- A store whose single list has zero tasks. -/
def storeEmptyList : Store :=
  { users := [{ id := 1, email := "a@b.c", password := "hash1", name := "Alice" }],
    lists := [{ id := 1, name := "L", author_id := some 1 }],
    tasks := [] }

/-! ### Helper lemmas about the loops of `update_list` -/

theorem any_beq_eq_contains (ids : List Nat) (x : Nat) :
    ids.any (fun i => x == i) = ids.contains x := by
  induction ids with
  | nil => rfl
  | cons a l ih => simp only [List.any_cons, List.contains_cons, ih]

/-- The `done` loop is the pointwise map that sets `done` on every task
whose id was submitted. -/
theorem applyDone_eq : ∀ (ids : List Nat) (ts ts' : List Task),
    applyDone ts ids = some ts' →
    ts' = ts.map (fun t => if ids.contains t.id then { t with done := true } else t) := by
  intro ids
  induction ids with
  | nil =>
    intro ts ts' h
    simp only [applyDone, Option.some.injEq] at h
    subst h
    simp
  | cons tid rest ih =>
    intro ts ts' h
    simp only [applyDone] at h
    split at h
    · have hrec := ih _ _ h
      subst hrec
      unfold setTaskDone
      rw [List.map_map]
      apply List.map_congr_left
      intro t _
      by_cases h1 : t.id = tid
      · simp [h1, List.contains_cons]
      · simp [h1, List.contains_cons]
    · exact absurd h (by simp)

/-- A successful iteration of the deadline/description loop selects the
task id and the description at position `due_to_dates.index(date)` and is
the pointwise map touching exactly the tasks with that id. -/
theorem overwriteStep_cases (F : List String) (ttu : List Nat) (D : List String)
    (ts : List Task) (d : String) (ts' : List Task)
    (h : overwriteStep F ttu D ts d = some ts') :
    ∃ tid desc, ttu[firstIdx F d]? = some tid ∧ D[firstIdx F d]? = some desc ∧
      (ts.any (fun t => t.id == tid)) = true ∧
      ((d = "" ∧ ts' = ts.map (touchDesc tid desc)) ∨
       (d ≠ "" ∧ ∃ pd, parseDate d = some pd ∧
          ts' = ts.map (touchDescDl tid desc pd))) := by
  simp only [overwriteStep] at h
  split at h
  case h_1 tid desc hU hD =>
    refine ⟨tid, desc, hU, hD, ?_⟩
    split at h
    case isTrue hany =>
      refine ⟨hany, ?_⟩
      split at h
      case isTrue hempty =>
        simp only [Option.some.injEq] at h
        exact Or.inl ⟨by simpa using hempty, h.symm⟩
      case isFalse hne =>
        split at h
        case h_1 pd hpd =>
          simp only [Option.some.injEq] at h
          exact Or.inr ⟨by simpa using hne, pd, hpd, h.symm⟩
        case h_2 => exact absurd h (by simp)
    case isFalse => exact absurd h (by simp)
  case h_2 => exact absurd h (by simp)

/-- Any successful iteration of the deadline/description loop only
rewrites `description` and `deadline`: `id`, `done` and `tasks_list` are
untouched, positionally. -/
theorem overwriteStep_pres (F : List String) (ttu : List Nat) (D : List String)
    (ts : List Task) (d : String) (ts' : List Task)
    (h : overwriteStep F ttu D ts d = some ts') :
    ts'.length = ts.length ∧
    ∀ p (hp : p < ts.length) (hp' : p < ts'.length),
      (ts'.get ⟨p, hp'⟩).id = (ts.get ⟨p, hp⟩).id ∧
      (ts'.get ⟨p, hp'⟩).done = (ts.get ⟨p, hp⟩).done ∧
      (ts'.get ⟨p, hp'⟩).tasks_list = (ts.get ⟨p, hp⟩).tasks_list := by
  obtain ⟨tid, desc, _, _, _, hcase⟩ := overwriteStep_cases F ttu D ts d ts' h
  rcases hcase with ⟨_, rfl⟩ | ⟨_, pd, _, rfl⟩ <;>
    refine ⟨by simp, ?_⟩ <;>
    intro p hp hp' <;>
    simp only [List.get_eq_getElem, List.getElem_map, touchDesc, touchDescDl] <;>
    split <;> simp

/-- Positional preservation of `id`, `done`, `tasks_list` over the whole
deadline/description loop. -/
theorem overwriteLoop_pres : ∀ (suf : List String) (F : List String)
    (ttu : List Nat) (D : List String) (ts ts' : List Task),
    overwriteLoop F ttu D ts suf = some ts' →
    ts'.length = ts.length ∧
    ∀ p (hp : p < ts.length) (hp' : p < ts'.length),
      (ts'.get ⟨p, hp'⟩).id = (ts.get ⟨p, hp⟩).id ∧
      (ts'.get ⟨p, hp'⟩).done = (ts.get ⟨p, hp⟩).done ∧
      (ts'.get ⟨p, hp'⟩).tasks_list = (ts.get ⟨p, hp⟩).tasks_list := by
  intro suf
  induction suf with
  | nil =>
    intro F ttu D ts ts' h
    simp only [overwriteLoop, Option.some.injEq] at h
    subst h
    exact ⟨rfl, fun p hp hp' => ⟨rfl, rfl, rfl⟩⟩
  | cons d rest ih =>
    intro F ttu D ts ts' h
    simp only [overwriteLoop] at h
    split at h
    case _ ts1 hstep =>
      obtain ⟨hlen1, hpres1⟩ := overwriteStep_pres F ttu D ts d ts1 hstep
      obtain ⟨hlen2, hpres2⟩ := ih F ttu D ts1 ts' h
      refine ⟨hlen2.trans hlen1, ?_⟩
      intro p hp hp'
      have hp1 : p < ts1.length := by omega
      obtain ⟨h1, h2, h3⟩ := hpres1 p hp hp1
      obtain ⟨h4, h5, h6⟩ := hpres2 p hp1 hp'
      exact ⟨h4.trans h1, h5.trans h2, h6.trans h3⟩
    · exact absurd h (by simp)

/-- What a successful `update_list` request does to the store, row by row:
users untouched; lists keep their `id` and `author_id` (only the name can
change); tasks keep `id` and `tasks_list`, and a task's `done` flag after
the request is its old flag or-ed with membership of its id in the
submitted `done` field; the `completed` flag handed to the template is
the all-done check over the post-state tasks of this list. -/
theorem update_list_ok_spec (s : Store) (list_id : Nat) (form : UpdateForm)
    (s' : Store) (flag : Bool)
    (h : update_list s list_id form = .ok (s', flag)) :
    s'.users = s.users ∧
    s'.lists.length = s.lists.length ∧
    (∀ q (hq : q < s.lists.length) (hq' : q < s'.lists.length),
      (s'.lists.get ⟨q, hq'⟩).id = (s.lists.get ⟨q, hq⟩).id) ∧
    s'.tasks.length = s.tasks.length ∧
    (∀ p (hp : p < s.tasks.length) (hp' : p < s'.tasks.length),
      (s'.tasks.get ⟨p, hp'⟩).id = (s.tasks.get ⟨p, hp⟩).id ∧
      (s'.tasks.get ⟨p, hp'⟩).tasks_list = (s.tasks.get ⟨p, hp⟩).tasks_list ∧
      (s'.tasks.get ⟨p, hp'⟩).done
        = ((s.tasks.get ⟨p, hp⟩).done || form.tasksDone.contains (s.tasks.get ⟨p, hp⟩).id)) ∧
    flag = (s'.tasks.filter (fun t => t.tasks_list == some list_id)).all (·.done) := by
  simp only [update_list] at h
  split at h
  case h_1 => exact absurd h (by simp)
  case h_2 lst hfind =>
    have hlst : lst.id = list_id := by simpa using List.find?_some hfind
    split at h
    case h_1 => exact absurd h (by simp)
    case h_2 ts1 hdone =>
      split at h
      case h_1 => exact absurd h (by simp)
      case h_2 ts2 hover =>
        simp only [HResult.ok.injEq, Prod.mk.injEq] at h
        obtain ⟨hs', hflag⟩ := h
        have hts1 := applyDone_eq form.tasksDone s.tasks ts1 hdone
        obtain ⟨hlen2, hpres2⟩ := overwriteLoop_pres form.dueToDates form.dueToDates
          (notDoneIds s list_id) form.descriptions ts1 ts2 hover
        subst hs'
        refine ⟨rfl, by simp, ?_, ?_, ?_, ?_⟩
        · intro q hq hq'
          simp only [List.get_eq_getElem, List.getElem_map]
          split
          case isTrue hid =>
            have hqid : s.lists[q].id = list_id := by simpa using hid
            cases hn : form.name <;>
              simp [hlst, hqid]
          case isFalse => rfl
        · simpa [hts1] using hlen2
        · intro p hp hp'
          have hp1 : p < ts1.length := by
            rw [hts1]; simpa using hp
          have hp2 : p < ts2.length := by omega
          obtain ⟨e1, e2, e3⟩ := hpres2 p hp1 hp2
          have g1 : (ts1.get ⟨p, hp1⟩) =
              (if form.tasksDone.contains (s.tasks.get ⟨p, hp⟩).id then
                { s.tasks.get ⟨p, hp⟩ with done := true } else s.tasks.get ⟨p, hp⟩) := by
            simp only [hts1, List.get_eq_getElem, List.getElem_map]
          refine ⟨?_, ?_, ?_⟩
          · show (ts2.get ⟨p, hp2⟩).id = _
            rw [e1, g1]; split <;> rfl
          · show (ts2.get ⟨p, hp2⟩).tasks_list = _
            rw [e3, g1]; split <;> rfl
          · show (ts2.get ⟨p, hp2⟩).done = _
            rw [e2, g1]
            split
            case isTrue hc => rw [hc]; simp
            case isFalse hc =>
              simp only [Bool.not_eq_true] at hc
              rw [hc]; simp
        · exact hflag.symm

/-- On a duplicate-free list, `list.index(list[k])` is `k` itself. -/
theorem firstIdx_getElem : ∀ (F : List String), F.Nodup →
    ∀ (k : Nat) (hk : k < F.length), firstIdx F F[k] = k := by
  intro F
  induction F with
  | nil => intro _ k hk; exact absurd hk (by simp)
  | cons x xs ih =>
    intro hF k hk
    cases k with
    | zero => simp [firstIdx]
    | succ k =>
      have hx : x ∉ xs := (List.nodup_cons.mp hF).1
      have hk2 : k < xs.length := by simpa using hk
      have hne : (x == xs[k]) = false := by
        have : x ≠ xs[k] := fun he => hx (he ▸ List.getElem_mem hk2)
        simpa using this
      simp only [List.getElem_cons_succ, firstIdx, hne, Bool.false_eq_true, if_false]
      rw [ih (List.nodup_cons.mp hF).2 k hk2]

/-- The `done` loop succeeds as soon as every submitted id matches some
task row. -/
theorem applyDone_isSome : ∀ (ids : List Nat) (ts : List Task),
    (∀ tid ∈ ids, ∃ t ∈ ts, t.id = tid) → ∃ ts1, applyDone ts ids = some ts1 := by
  intro ids
  induction ids with
  | nil => intro ts _; exact ⟨ts, rfl⟩
  | cons tid rest ih =>
    intro ts h
    obtain ⟨t, ht, hid⟩ := h tid (by simp)
    have hany : (ts.any fun t => t.id == tid) = true :=
      List.any_eq_true.mpr ⟨t, ht, by simp [hid]⟩
    have hrest : ∀ tid2 ∈ rest, ∃ t2 ∈ setTaskDone ts tid, t2.id = tid2 := by
      intro tid2 h2
      obtain ⟨t2, ht2, hid2⟩ := h tid2 (by simp [h2])
      by_cases hc : (t2.id == tid) = true
      · exact ⟨{ t2 with done := true },
          List.mem_map.mpr ⟨t2, ht2, by simp [hc]⟩, by simpa using hid2⟩
      · exact ⟨t2, List.mem_map.mpr ⟨t2, ht2, by simp [hc]⟩, hid2⟩
    obtain ⟨ts1, h1⟩ := ih (setTaskDone ts tid) hrest
    exact ⟨ts1, by simp [applyDone, hany, h1]⟩

/-- Positional consequences of a successful `done` loop: same length,
same ids, and a task whose id was submitted ends up done. -/
theorem applyDone_pointwise (ids : List Nat) (ts ts1 : List Task)
    (h : applyDone ts ids = some ts1) :
    ts1.length = ts.length ∧
    ts1.map (·.id) = ts.map (·.id) ∧
    ∀ p (hp : p < ts.length) (hp1 : p < ts1.length),
      (ts1.get ⟨p, hp1⟩).id = (ts.get ⟨p, hp⟩).id ∧
      ((ts.get ⟨p, hp⟩).id ∈ ids → (ts1.get ⟨p, hp1⟩).done = true) := by
  have hts1 := applyDone_eq ids ts ts1 h
  subst hts1
  refine ⟨by simp, ?_, ?_⟩
  · rw [List.map_map]
    apply List.map_congr_left
    intro t _
    simp only [Function.comp]
    split <;> rfl
  · intro p hp hp1
    simp only [List.get_eq_getElem, List.getElem_map]
    constructor
    · split <;> rfl
    · intro hmem
      have hc : ids.contains (ts[p]).id = true := List.elem_iff.mpr hmem
      split
      · rfl
      · next hcf => exact absurd hc hcf

/-- Main lemma for the positional-update claims.  When the submitted
deadline values are pairwise distinct, the id list is duplicate-free,
the arrays are long enough and every submitted deadline is empty or
well-formed, the whole loop succeeds and behaves as the intended
positional zip: the task whose id sits at position `j` of
`tasks_to_update` ends with `descriptions[j]` as its description, its
deadline overwritten exactly when `due_to_dates[j]` is non-empty, and
every task whose id is at no position at all is untouched.  Stated for
the suffix `F.drop k` of the loop, by downward induction. -/
theorem overwriteLoop_nodup_spec (F : List String) (U : List Nat) (D : List String)
    (hF : F.Nodup) (hU : U.Nodup)
    (hlenU : F.length ≤ U.length) (hlenD : F.length ≤ D.length)
    (hvalid : ∀ d ∈ F, d = "" ∨ (parseDate d).isSome = true) :
    ∀ (n k : Nat), F.length - k = n → ∀ (ts : List Task),
    (∀ j (hjU : j < U.length), j < F.length → U[j] ∈ ts.map (·.id)) →
    ∃ ts', overwriteLoop F U D ts (F.drop k) = some ts' ∧
      ts'.length = ts.length ∧
      (∀ p (hp : p < ts.length) (hp' : p < ts'.length),
        (ts'.get ⟨p, hp'⟩).id = (ts.get ⟨p, hp⟩).id ∧
        (ts'.get ⟨p, hp'⟩).done = (ts.get ⟨p, hp⟩).done ∧
        (ts'.get ⟨p, hp'⟩).tasks_list = (ts.get ⟨p, hp⟩).tasks_list) ∧
      (∀ j (hj1 : k ≤ j) (hjF : j < F.length) (hjU : j < U.length) (hjD : j < D.length)
          (p : Nat) (hp : p < ts.length) (hp' : p < ts'.length),
        (ts.get ⟨p, hp⟩).id = U[j] →
          (ts'.get ⟨p, hp'⟩).description = D[j] ∧
          (F[j] = "" → (ts'.get ⟨p, hp'⟩).deadline = (ts.get ⟨p, hp⟩).deadline) ∧
          (F[j] ≠ "" → (ts'.get ⟨p, hp'⟩).deadline = parseDate F[j])) ∧
      (∀ p (hp : p < ts.length) (hp' : p < ts'.length),
        (∀ j (hjF : j < F.length) (hjU : j < U.length), k ≤ j →
          (ts.get ⟨p, hp⟩).id ≠ U[j]) →
        ts'.get ⟨p, hp'⟩ = ts.get ⟨p, hp⟩) := by
  intro n
  induction n with
  | zero =>
    intro k hk ts _
    have hdrop : F.drop k = [] := List.drop_eq_nil_of_le (by omega)
    refine ⟨ts, by simp [overwriteLoop, hdrop], rfl, ?_, ?_, ?_⟩
    · intro p hp hp'; exact ⟨rfl, rfl, rfl⟩
    · intro j hj1 hjF _ _ _ _ _ _; exact absurd hjF (by omega)
    · intro p hp hp' _; rfl
  | succ n ihn =>
    intro k hk ts hpres
    have hkF : k < F.length := by omega
    have hkU : k < U.length := by omega
    have hkD : k < D.length := by omega
    have hdrop : F.drop k = F[k] :: F.drop (k + 1) := List.drop_eq_getElem_cons hkF
    have hidx : firstIdx F F[k] = k := firstIdx_getElem F hF k hkF
    obtain ⟨t0, ht0, hid0⟩ := List.mem_map.mp (hpres k hkU hkF)
    have hany : (ts.any fun t => t.id == U[k]) = true :=
      List.any_eq_true.mpr ⟨t0, ht0, by simp [hid0]⟩
    have hpack : ∃ g : Task → Task,
        overwriteStep F U D ts F[k] = some (ts.map g) ∧
        (∀ t : Task, (g t).id = t.id) ∧
        (∀ t : Task, (g t).done = t.done) ∧
        (∀ t : Task, (g t).tasks_list = t.tasks_list) ∧
        (∀ t : Task, t.id = U[k] → (g t).description = D[k]) ∧
        (∀ t : Task, t.id = U[k] →
          ((F[k] = "" → (g t).deadline = t.deadline) ∧
           (F[k] ≠ "" → (g t).deadline = parseDate F[k]))) ∧
        (∀ t : Task, t.id ≠ U[k] → g t = t) := by
      rcases hvalid F[k] (List.getElem_mem hkF) with hempty | hsomePd
      · refine ⟨touchDesc U[k] D[k], ?_, ?_, ?_, ?_, ?_, ?_, ?_⟩
        · unfold overwriteStep
          rw [hidx, List.getElem?_eq_getElem hkU, List.getElem?_eq_getElem hkD]
          simp [hany, hempty]
        · intro t; unfold touchDesc; split <;> rfl
        · intro t; unfold touchDesc; split <;> rfl
        · intro t; unfold touchDesc; split <;> rfl
        · intro t ht; simp [touchDesc, ht]
        · intro t ht
          exact ⟨fun _ => by simp [touchDesc, ht], fun hne => absurd hempty hne⟩
        · intro t ht; simp [touchDesc, ht]
      · obtain ⟨pd, hpd⟩ := Option.isSome_iff_exists.mp hsomePd
        have hne : F[k] ≠ "" := by
          intro he
          rw [he] at hpd
          exact absurd hpd (by simp [parseDate, splitDash])
        refine ⟨touchDescDl U[k] D[k] pd, ?_, ?_, ?_, ?_, ?_, ?_, ?_⟩
        · unfold overwriteStep
          rw [hidx, List.getElem?_eq_getElem hkU, List.getElem?_eq_getElem hkD]
          have hbne : (F[k] == "") = false := by simp [hne]
          simp [hany, hbne, hpd]
        · intro t; unfold touchDescDl; split <;> rfl
        · intro t; unfold touchDescDl; split <;> rfl
        · intro t; unfold touchDescDl; split <;> rfl
        · intro t ht; simp [touchDescDl, ht]
        · intro t ht
          exact ⟨fun he => absurd he hne, fun _ => by simp [touchDescDl, ht, hpd]⟩
        · intro t ht; simp [touchDescDl, ht]
    obtain ⟨g, hstep, hgid, hgdone, hgtl, hgdesc, hgdl, hgunch⟩ := hpack
    have hlen1 : (ts.map g).length = ts.length := by simp
    have hids1 : (ts.map g).map (·.id) = ts.map (·.id) := by
      rw [List.map_map]
      apply List.map_congr_left
      intro t _
      simpa [Function.comp] using hgid t
    have hpres1 : ∀ j (hjU : j < U.length), j < F.length → U[j] ∈ (ts.map g).map (·.id) := by
      intro j hjU hjF
      rw [hids1]
      exact hpres j hjU hjF
    obtain ⟨ts', hloop, hlen', hpres', hmain', huntouch'⟩ :=
      ihn (k + 1) (by omega) (ts.map g) hpres1
    have hmapget : ∀ (p : Nat) (hp : p < ts.length) (hp1 : p < (ts.map g).length),
        (ts.map g).get ⟨p, hp1⟩ = g (ts.get ⟨p, hp⟩) := by
      intro p hp hp1
      simp [List.get_eq_getElem, List.getElem_map]
    refine ⟨ts', ?_, ?_, ?_, ?_, ?_⟩
    · rw [hdrop]
      simp only [overwriteLoop, hstep]
      exact hloop
    · rw [hlen', hlen1]
    · intro p hp hp'
      have hp1 : p < (ts.map g).length := by simpa using hp
      obtain ⟨e1, e2, e3⟩ := hpres' p hp1 hp'
      rw [hmapget p hp hp1] at e1 e2 e3
      exact ⟨e1.trans (hgid _), e2.trans (hgdone _), e3.trans (hgtl _)⟩
    · intro j hj1 hjF hjU hjD p hp hp' hid
      have hp1 : p < (ts.map g).length := by simpa using hp
      rcases Nat.eq_or_lt_of_le hj1 with hjk | hjk
      · subst hjk
        have hdesc : ((ts.map g).get ⟨p, hp1⟩).description = D[k] := by
          rw [hmapget p hp hp1]
          exact hgdesc _ hid
        have hdl := hgdl (ts.get ⟨p, hp⟩) hid
        have hidp : ((ts.map g).get ⟨p, hp1⟩).id = U[k] := by
          rw [hmapget p hp hp1, hgid _]
          exact hid
        have hnot : ∀ j2 (hj2F : j2 < F.length) (hj2U : j2 < U.length), k + 1 ≤ j2 →
            ((ts.map g).get ⟨p, hp1⟩).id ≠ U[j2] := by
          intro j2 hj2F hj2U hj2k
          rw [hidp]
          intro he
          have := (hU.getElem_inj_iff).mp he
          omega
        have hfix := huntouch' p hp1 hp' hnot
        refine ⟨?_, ?_, ?_⟩
        · rw [hfix]; exact hdesc
        · intro hFe
          rw [hfix, hmapget p hp hp1]
          exact hdl.1 hFe
        · intro hFne
          rw [hfix, hmapget p hp hp1]
          exact hdl.2 hFne
      · have hneK : (ts.get ⟨p, hp⟩).id ≠ U[k] := by
          rw [hid]
          intro he
          have := (hU.getElem_inj_iff).mp he
          omega
        have hunch : (ts.map g).get ⟨p, hp1⟩ = ts.get ⟨p, hp⟩ := by
          rw [hmapget p hp hp1]
          exact hgunch _ hneK
        have hid1 : ((ts.map g).get ⟨p, hp1⟩).id = U[j] := by
          rw [hunch]; exact hid
        obtain ⟨m1, m2, m3⟩ := hmain' j (by omega) hjF hjU hjD p hp1 hp' hid1
        refine ⟨m1, ?_, m3⟩
        intro hFe
        rw [m2 hFe, hunch]
    · intro p hp hp' hnone
      have hp1 : p < (ts.map g).length := by simpa using hp
      have hneK : (ts.get ⟨p, hp⟩).id ≠ U[k] := hnone k hkF hkU (Nat.le_refl k)
      have hunch : (ts.map g).get ⟨p, hp1⟩ = ts.get ⟨p, hp⟩ := by
        rw [hmapget p hp hp1]
        exact hgunch _ hneK
      have hnone1 : ∀ j2 (hj2F : j2 < F.length) (hj2U : j2 < U.length), k + 1 ≤ j2 →
          ((ts.map g).get ⟨p, hp1⟩).id ≠ U[j2] := by
        intro j2 hj2F hj2U hj2k
        rw [hunch]
        exact hnone j2 hj2F hj2U (by omega)
      have hfix := huntouch' p hp1 hp' hnone1
      rw [hfix, hunch]

/-! ### Claim theorems -/

/-- C1: the handler is meant to pair the i-th submitted description with
the i-th not-done task, but because each loop iteration recomputes the
index as `due_to_dates.index(date)` (the FIRST occurrence of the value),
duplicate deadline values break the pairing: on a list with two not-done
tasks and submission deadlines `["2024-01-01", "2024-01-01"]`,
descriptions `["a", "b"]`, the first task is overwritten twice with
`"a"` and the second task never receives `"b"` — it keeps its old
description `"y"`. -/
theorem C1_duplicate_deadlines_break_pairing :
    update_list storeA 1 formDup = .ok (storeADupResult, false) ∧
    formDup.descriptions = ["a", "b"] ∧
    (storeADupResult.tasks.filter (fun t => t.id == 2)).map (fun t => t.description)
      = ["y"] := by
  refine ⟨?_, rfl, rfl⟩
  decide

/-- C2 counterexample: deleting an absent list id does not produce a
404-style response; `.scalar()` returns null and `db.session.delete(None)`
raises, i.e. the request dies with a server error. -/
theorem C2_cex_delete_absent_is_500_not_404 :
    delete_list emptyStore 1 = .serverError ∧
    (HResult.serverError : HResult Store) ≠ .notFound := by
  refine ⟨rfl, ?_⟩
  decide

/-- C2 amended: none of the four fetch-by-id handlers guards an absent
id with a 404.  Viewing renders with null data; add-task proceeds and
commits a task with no parent list; bulk-update and delete die with an
uncaught exception (server error), not a 404. -/
theorem C2_amended_absent_id_behavior (s : Store) (lid : Nat) (d : String)
    (form : UpdateForm) (habs : ∀ l ∈ s.lists, l.id ≠ lid) :
    all_task s lid = none ∧
    (add_task s lid d).2 = none ∧
    (∃ t, t.tasks_list = none ∧ (add_task s lid d).1.tasks = s.tasks ++ [t]) ∧
    update_list s lid form = .serverError ∧
    delete_list s lid = .serverError := by
  have hfind : s.lists.find? (fun l => l.id == lid) = none := by
    rw [List.find?_eq_none]
    intro l hl
    simpa using habs l hl
  refine ⟨hfind, ?_, ?_, ?_, ?_⟩
  · simp [add_task, hfind]
  · exact ⟨⟨nextTaskId s, false, d, none, none⟩, rfl, by simp [add_task, hfind]⟩
  · simp [update_list, hfind]
  · simp [delete_list, hfind]

/-- C2 witness: the amended behavior at a concrete store with no list
of id 7. -/
theorem C2_amended_witness :
    all_task storeA 7 = none ∧
    (add_task storeA 7 "t").2 = none ∧
    (∃ t, t.tasks_list = none ∧ (add_task storeA 7 "t").1.tasks = storeA.tasks ++ [t]) ∧
    update_list storeA 7 formDup = .serverError ∧
    delete_list storeA 7 = .serverError :=
  C2_amended_absent_id_behavior storeA 7 "t" formDup (by decide)

/-- C3: registering with an email that some existing user already has
leaves the store and the session untouched and re-renders the
registration form with the warning flash. -/
theorem C3_duplicate_email_rejected (hash : String → String) (s : Store)
    (sess : Option Nat) (n e pw : String) (h : ∃ u ∈ s.users, u.email = e) :
    register hash s sess n e pw = (s, sess, .renderForm (some "This email already exists")) := by
  obtain ⟨u, hu, he⟩ := h
  have hany : (s.users.any (fun u => u.email == e)) = true :=
    List.any_eq_true.mpr ⟨u, hu, by simp [he]⟩
  simp [register, hany]

/-- C3 witness: re-registering `a@b.c` on `storeA`. -/
theorem C3_witness :
    register (fun p => p) storeA none "Bob" "a@b.c" "password123"
      = (storeA, none, .renderForm (some "This email already exists")) :=
  C3_duplicate_email_rejected (fun p => p) storeA none "Bob" "a@b.c" "password123"
    ⟨{ id := 1, email := "a@b.c", password := "hash1", name := "Alice" }, by decide, rfl⟩

/-- C4 counterexample: the two login failure causes do NOT produce the
same message: an unknown email flashes "That email does not exist,
please try again." while a wrong password flashes "Invalid email or
password, please try again.", so the causes are distinguishable. -/
theorem C4_cex_failure_messages_differ :
    (login (fun h p => h == p) storeA none "zz@q.r" "pw").2.flashOf ≠
    (login (fun h p => h == p) storeA none "a@b.c" "wrong").2.flashOf := by
  decide

/-- C4 amended: an unknown email flashes its own message and redirects to
the login page, a password mismatch flashes a different, generic message
and re-renders the form (so the two causes are distinguishable); neither
failure touches the session; only a known email whose stored hash checks
out logs the user in and redirects home. -/
theorem C4_amended_login_characterized (check : String → String → Bool)
    (s : Store) (sess : Option Nat) (e pw : String) :
    (s.users.find? (fun u => u.email == e) = none →
      login check s sess e pw =
        (sess, .redirectToLogin "That email does not exist, please try again.")) ∧
    (∀ u, s.users.find? (fun u => u.email == e) = some u → check u.password pw = false →
      login check s sess e pw =
        (sess, .renderLoginForm "Invalid email or password, please try again.")) ∧
    (∀ u, s.users.find? (fun u => u.email == e) = some u → check u.password pw = true →
      login check s sess e pw = (some u.id, .redirectHome)) ∧
    ((login check s sess e pw).2 ≠ .redirectHome → (login check s sess e pw).1 = sess) := by
  refine ⟨?_, ?_, ?_, ?_⟩
  · intro hf; simp [login, hf]
  · intro u hf hc; simp [login, hf, hc]
  · intro u hf hc; simp [login, hf, hc]
  · intro hne
    cases hf : s.users.find? (fun u => u.email == e) with
    | none => simp [login, hf]
    | some u =>
      by_cases hc : check u.password pw = true
      · exact absurd (by simp [login, hf, hc]) hne
      · simp [login, hf, hc]

/-- C4 witness: wrong password for the known email `a@b.c` on `storeA`
re-renders the form with the generic message and keeps the session. -/
theorem C4_amended_witness :
    login (fun h p => h == p) storeA none "a@b.c" "wrong"
      = (none, .renderLoginForm "Invalid email or password, please try again.") :=
  (C4_amended_login_characterized (fun h p => h == p) storeA none "a@b.c" "wrong").2.1
    { id := 1, email := "a@b.c", password := "hash1", name := "Alice" } (by decide) (by decide)

/-- C5: an authenticated new-list POST appends exactly one list (owned
by the caller, named from the current date) and exactly one task whose
description is the submitted value, not done, with no deadline. -/
theorem C5_create_list_spec (s : Store) (uid : Nat) (today desc : String) :
    (create_list s uid today desc).1.users = s.users ∧
    (create_list s uid today desc).1.lists = s.lists ++ [(create_list s uid today desc).2] ∧
    (create_list s uid today desc).2.author_id = some uid ∧
    (create_list s uid today desc).2.name = "My to-do list " ++ today ∧
    ∃ t, (create_list s uid today desc).1.tasks = s.tasks ++ [t] ∧
      t.done = false ∧ t.deadline = none ∧ t.description = desc ∧
      t.tasks_list = some (create_list s uid today desc).2.id :=
  ⟨rfl, rfl, rfl, rfl, ⟨_, rfl, rfl, rfl, rfl, rfl⟩⟩

/-- C6: a bulk-update request sets `done` to true for exactly the tasks
whose id is in the submitted `done` field (the select is global, so this
is by id, not by list), leaves every other task's flag unchanged, and no
operation of the program (bulk update, create list, add task, delete
list, register) ever turns a task's `done` from true back to false. -/
theorem C6_done_flags (s : Store) (list_id : Nat) (form : UpdateForm)
    (s' : Store) (flag : Bool) (h : update_list s list_id form = .ok (s', flag)) :
    (s'.tasks.length = s.tasks.length ∧
     ∀ p (hp : p < s.tasks.length) (hp' : p < s'.tasks.length),
       (s'.tasks.get ⟨p, hp'⟩).id = (s.tasks.get ⟨p, hp⟩).id ∧
       ((s.tasks.get ⟨p, hp⟩).id ∈ form.tasksDone → (s'.tasks.get ⟨p, hp'⟩).done = true) ∧
       ((s.tasks.get ⟨p, hp⟩).id ∉ form.tasksDone →
         (s'.tasks.get ⟨p, hp'⟩).done = (s.tasks.get ⟨p, hp⟩).done) ∧
       ((s.tasks.get ⟨p, hp⟩).done = true → (s'.tasks.get ⟨p, hp'⟩).done = true)) ∧
    (∀ (s2 : Store) (uid : Nat) (today desc : String),
       ∃ t, t.done = false ∧ (create_list s2 uid today desc).1.tasks = s2.tasks ++ [t]) ∧
    (∀ (s2 : Store) (lid2 : Nat) (d : String),
       ∃ t, t.done = false ∧ (add_task s2 lid2 d).1.tasks = s2.tasks ++ [t]) ∧
    (∀ (s2 s2' : Store) (lid3 : Nat), delete_list s2 lid3 = .ok s2' →
       s2'.tasks.length = s2.tasks.length ∧
       ∀ p (hp : p < s2.tasks.length) (hp' : p < s2'.tasks.length),
         (s2'.tasks.get ⟨p, hp'⟩).id = (s2.tasks.get ⟨p, hp⟩).id ∧
         (s2'.tasks.get ⟨p, hp'⟩).done = (s2.tasks.get ⟨p, hp⟩).done) ∧
    (∀ (hash : String → String) (s2 : Store) (sess : Option Nat) (n e pw : String),
       (register hash s2 sess n e pw).1.tasks = s2.tasks) := by
  obtain ⟨-, -, -, hTlen, hTq, -⟩ := update_list_ok_spec s list_id form s' flag h
  refine ⟨⟨hTlen, ?_⟩, ?_, ?_, ?_, ?_⟩
  · intro p hp hp'
    obtain ⟨hid, hpar, hdone⟩ := hTq p hp hp'
    refine ⟨hid, ?_, ?_, ?_⟩
    · intro hmem
      have hc : form.tasksDone.contains (s.tasks.get ⟨p, hp⟩).id = true :=
        List.elem_iff.mpr hmem
      rw [hdone, hc]; simp
    · intro hnmem
      have hc : form.tasksDone.contains (s.tasks.get ⟨p, hp⟩).id = false := by
        cases hcon : form.tasksDone.contains (s.tasks.get ⟨p, hp⟩).id
        · rfl
        · exact absurd (List.elem_iff.mp hcon) hnmem
      rw [hdone, hc]; simp
    · intro hd
      rw [hdone, hd]; simp
  · intro s2 uid today desc
    exact ⟨_, rfl, rfl⟩
  · intro s2 lid2 d
    exact ⟨_, rfl, rfl⟩
  · intro s2 s2' lid3 hdel
    revert hdel
    simp only [delete_list]
    split
    · intro hdel; exact absurd hdel (by simp)
    · intro hdel
      simp only [HResult.ok.injEq] at hdel
      subst hdel
      refine ⟨by simp, ?_⟩
      intro p hp hp'
      refine ⟨?_, ?_⟩ <;>
        · dsimp only
          simp only [List.get_eq_getElem, List.getElem_map]
          split <;> rfl
  · intro hash s2 sess n e pw
    unfold register
    split <;> rfl

/-- C6 witness: marking both tasks of `storeA` done. -/
theorem C6_witness :
    update_list storeA 1 formMarkAll = .ok (storeAMarkedAll, true) ∧
    storeAMarkedAll.tasks.length = storeA.tasks.length :=
  ⟨by decide,
   (C6_done_flags storeA 1 formMarkAll storeAMarkedAll true (by decide)).1.1⟩

/-- C7 counterexample: on a store satisfying the every-task-has-a-list
invariant, deleting list 1 leaves both of its tasks behind with a nulled
FK, so the invariant is violated after the operation. -/
theorem C7_cex_delete_orphans_tasks :
    allTasksParented storeA = true ∧
    delete_list storeA 1 = .ok storeAOrphaned ∧
    allTasksParented storeAOrphaned = false := by
  refine ⟨by decide, by decide, by decide⟩

/-- C7 amended: creating a list, adding a task to an existing list and a
successful bulk update all preserve the every-task-has-an-existing-list
invariant, but the two unguarded paths break it: deleting a list keeps
its task rows and nulls their FK (so the invariant fails whenever the
deleted list had tasks), and adding a task to an absent list id commits
a task whose FK is null. -/
theorem C7_amended_parent_invariant :
    (∀ (s : Store) (uid : Nat) (today desc : String), allTasksParented s = true →
       allTasksParented (create_list s uid today desc).1 = true) ∧
    (∀ (s : Store) (lid : Nat) (d : String), allTasksParented s = true →
       (∃ l ∈ s.lists, l.id = lid) → allTasksParented (add_task s lid d).1 = true) ∧
    (∀ (s : Store) (lid : Nat) (form : UpdateForm) (s' : Store) (flag : Bool),
       allTasksParented s = true → update_list s lid form = .ok (s', flag) →
       allTasksParented s' = true) ∧
    (∀ (s : Store) (lid : Nat) (s' : Store), delete_list s lid = .ok s' →
       s'.tasks.length = s.tasks.length ∧
       (∀ t ∈ s'.tasks, t.tasks_list ≠ some lid) ∧
       (listTasks s lid ≠ [] → allTasksParented s' = false)) ∧
    (∀ (s : Store) (lid : Nat) (d : String), (∀ l ∈ s.lists, l.id ≠ lid) →
       ∃ t, t.tasks_list = none ∧ (add_task s lid d).1.tasks = s.tasks ++ [t]) := by
  refine ⟨?_, ?_, ?_, ?_, ?_⟩
  · intro s uid today desc hs
    rw [allTasksParented, List.all_eq_true]
    intro t ht
    rcases List.mem_append.mp ht with hold | hnew
    · have hsrc : taskHasParent s t = true :=
        List.all_eq_true.mp hs t hold
      obtain ⟨l, hl, hb⟩ := List.any_eq_true.mp hsrc
      exact List.any_eq_true.mpr ⟨l, List.mem_append.mpr (Or.inl hl), hb⟩
    · have hnew2 : t = ⟨nextTaskId { s with lists := s.lists ++ [⟨nextListId s, "My to-do list " ++ today, some uid⟩] },
          false, desc, some (nextListId s), none⟩ := by
        simpa using hnew
      subst hnew2
      refine List.any_eq_true.mpr ⟨⟨nextListId s, "My to-do list " ++ today, some uid⟩,
        List.mem_append.mpr (Or.inr (by simp)), by simp⟩
  · intro s lid d hs hex
    obtain ⟨l0, hl0, hid0⟩ := hex
    have hsome : (s.lists.find? (fun l => l.id == lid)).isSome = true :=
      List.find?_isSome.mpr ⟨l0, hl0, by simp [hid0]⟩
    obtain ⟨lf, hlf⟩ := Option.isSome_iff_exists.mp hsome
    rw [allTasksParented, List.all_eq_true]
    intro t ht
    rcases List.mem_append.mp ht with hold | hnew
    · exact List.all_eq_true.mp hs t hold
    · have hnew2 : t = ⟨nextTaskId s, false, d,
          (s.lists.find? (fun l => l.id == lid)).map (·.id), none⟩ := by
        simpa [add_task] using hnew
      subst hnew2
      refine List.any_eq_true.mpr ⟨lf, List.mem_of_find?_eq_some hlf, by simp [hlf]⟩
  · intro s lid form s' flag hs h
    obtain ⟨-, hLlen, hLq, hTlen, hTq, -⟩ := update_list_ok_spec s lid form s' flag h
    rw [allTasksParented, List.all_eq_true]
    intro t ht
    obtain ⟨p, hp', hpe⟩ := List.getElem_of_mem ht
    have hp : p < s.tasks.length := by omega
    obtain ⟨-, hpar, -⟩ := hTq p hp hp'
    have hsrc : taskHasParent s (s.tasks.get ⟨p, hp⟩) = true :=
      List.all_eq_true.mp hs _ (List.get_mem _ _ _)
    obtain ⟨l, hl, hb⟩ := List.any_eq_true.mp hsrc
    obtain ⟨q, hq, hqe⟩ := List.getElem_of_mem hl
    have hq' : q < s'.lists.length := by omega
    have hidq := hLq q hq hq'
    refine List.any_eq_true.mpr ⟨s'.lists.get ⟨q, hq'⟩, List.get_mem _ _ _, ?_⟩
    have h1 : (s'.lists.get ⟨q, hq'⟩).id = l.id := by
      rw [hidq]; simp only [List.get_eq_getElem, hqe]
    have h2 : t.tasks_list = (s.tasks.get ⟨p, hp⟩).tasks_list := by
      rw [← hpar]; simp only [List.get_eq_getElem, hpe]
    rw [h1, h2]
    exact hb
  · intro s lid s' hdel
    revert hdel
    simp only [delete_list]
    split
    · intro hdel; exact absurd hdel (by simp)
    · intro hdel
      simp only [HResult.ok.injEq] at hdel
      subst hdel
      refine ⟨by simp, ?_, ?_⟩
      · intro t ht
        obtain ⟨t0, ht0, hft⟩ := List.mem_map.mp ht
        by_cases hc : (t0.tasks_list == some lid) = true
        · rw [if_pos hc] at hft
          rw [← hft]
          simp
        · rw [if_neg hc] at hft
          rw [← hft]
          simpa using hc
      · intro hne
        have hex : ∃ t0 ∈ s.tasks, (t0.tasks_list == some lid) = true := by
          rcases hlt : listTasks s lid with _ | ⟨t0, rest⟩
          · exact absurd hlt hne
          · have : t0 ∈ listTasks s lid := by rw [hlt]; simp
            obtain ⟨ht0, hb0⟩ := List.mem_filter.mp this
            exact ⟨t0, ht0, hb0⟩
        obtain ⟨t0, ht0, hb0⟩ := hex
        rw [allTasksParented, List.all_eq_false]
        refine ⟨(fun t => if t.tasks_list == some lid then { t with tasks_list := none } else t) t0,
          List.mem_map.mpr ⟨t0, ht0, rfl⟩, ?_⟩
        simp [taskHasParent, hb0]
  · intro s lid d habs
    have hfind : s.lists.find? (fun l => l.id == lid) = none := by
      rw [List.find?_eq_none]
      intro l hl
      simpa using habs l hl
    exact ⟨⟨nextTaskId s, false, d, none, none⟩, rfl, by simp [add_task, hfind]⟩

/-- C7 witness: instantiating the preserved case on `storeA`. -/
theorem C7_amended_witness :
    allTasksParented (create_list storeA 1 "2025/01/01" "milk").1 = true :=
  C7_amended_parent_invariant.1 storeA 1 "2025/01/01" "milk" (by decide)

/-- C8: the `completed` flag handed to the template after a successful
bulk update is true exactly when every task of the updated list is done
in the post-update store. -/
theorem C8_completed_iff_all_done (s : Store) (list_id : Nat) (form : UpdateForm)
    (s' : Store) (flag : Bool) (h : update_list s list_id form = .ok (s', flag)) :
    flag = true ↔ ∀ t ∈ s'.tasks, t.tasks_list = some list_id → t.done = true := by
  obtain ⟨-, -, -, -, -, hflag⟩ := update_list_ok_spec s list_id form s' flag h
  rw [hflag, List.all_eq_true]
  constructor
  · intro H t ht hpar
    exact H t (List.mem_filter.mpr ⟨ht, by simp [hpar]⟩)
  · intro H t ht
    obtain ⟨ht', hpar⟩ := List.mem_filter.mp ht
    exact H t ht' (by simpa using hpar)

/-- C8 witness: after marking both tasks of `storeA` done the flag is
true and indeed every task of list 1 is done. -/
theorem C8_witness :
    update_list storeA 1 formMarkAll = .ok (storeAMarkedAll, true) ∧
    ((true : Bool) = true ↔
      ∀ t ∈ storeAMarkedAll.tasks, t.tasks_list = some 1 → t.done = true) :=
  ⟨by decide,
   C8_completed_iff_all_done storeA 1 formMarkAll storeAMarkedAll true (by decide)⟩

/-- C10: a successful bulk update of a list with zero tasks reports
`completed = true`: the all-done loop over an empty relationship never
clears the flag. -/
theorem C10_empty_list_completed (s : Store) (lid : Nat) (form : UpdateForm)
    (s' : Store) (flag : Bool) (h0 : listTasks s lid = [])
    (h : update_list s lid form = .ok (s', flag)) : flag = true := by
  obtain ⟨-, -, -, hTlen, hTq, hflag⟩ := update_list_ok_spec s lid form s' flag h
  rw [hflag, List.all_eq_true]
  intro t ht
  exfalso
  obtain ⟨ht', hb⟩ := List.mem_filter.mp ht
  obtain ⟨p, hp', hpe⟩ := List.getElem_of_mem ht'
  have hp : p < s.tasks.length := by omega
  obtain ⟨-, hpar, -⟩ := hTq p hp hp'
  have h1 : (s.tasks.get ⟨p, hp⟩).tasks_list = some lid := by
    rw [← hpar]
    simp only [List.get_eq_getElem, hpe]
    simpa using hb
  simp only [List.get_eq_getElem] at h1
  have h2 : s.tasks.get ⟨p, hp⟩ ∈ listTasks s lid := by
    rw [listTasks]
    exact List.mem_filter.mpr ⟨List.get_mem _ _ _, by simp [h1]⟩
  rw [h0] at h2
  exact absurd h2 (List.not_mem_nil _)

/-- C10 witness: updating the empty list of `storeEmptyList` with an
empty form succeeds and reports `completed = true`. -/
theorem C10_witness :
    listTasks storeEmptyList 1 = [] ∧
    update_list storeEmptyList 1 ⟨none, [], [], []⟩ = .ok (storeEmptyList, true) ∧
    (true : Bool) = true :=
  ⟨by decide, by decide,
   C10_empty_list_completed storeEmptyList 1 ⟨none, [], [], []⟩ storeEmptyList true
     (by decide) (by decide)⟩

/-- C9: the list of not-done tasks targeted by the positional overwrite
loop is computed from the store BEFORE the submitted `done` ids are
applied (`tasks_to_update` is built on line 189, the `done` loop runs on
lines 190-193), so a task marked done by the very same request still
occupies its position and still receives the positionally corresponding
description, and deadline when the submitted value is non-empty.
Stated under the conditions that make the loop the intended positional
zip: duplicate-free store ids and submitted deadlines, arrays no longer
than the pre-state not-done list, well-formed or empty deadlines, and
submitted `done` ids that match existing rows. -/
theorem C9_targets_computed_before_done (s : Store) (lid : Nat) (form : UpdateForm)
    (hids : (s.tasks.map (·.id)).Nodup)
    (hlist : ∃ l ∈ s.lists, l.id = lid)
    (hdone : ∀ tid ∈ form.tasksDone, ∃ t ∈ s.tasks, t.id = tid)
    (hFnd : form.dueToDates.Nodup)
    (hlenU : form.dueToDates.length ≤ (notDoneIds s lid).length)
    (hlenD : form.dueToDates.length ≤ form.descriptions.length)
    (hvalid : ∀ d ∈ form.dueToDates, d = "" ∨ (parseDate d).isSome = true) :
    ∃ s' flag, update_list s lid form = .ok (s', flag) ∧
      ∀ i (hiF : i < form.dueToDates.length) (hiU : i < (notDoneIds s lid).length)
        (hiD : i < form.descriptions.length),
        ∃ t ∈ s'.tasks, t.id = (notDoneIds s lid)[i] ∧
          t.description = form.descriptions[i] ∧
          (form.dueToDates[i] ≠ "" → t.deadline = parseDate form.dueToDates[i]) ∧
          ((notDoneIds s lid)[i] ∈ form.tasksDone → t.done = true) := by
  obtain ⟨l0, hl0, hlid0⟩ := hlist
  have hfindSome : (s.lists.find? (fun l => l.id == lid)).isSome = true :=
    List.find?_isSome.mpr ⟨l0, hl0, by simp [hlid0]⟩
  obtain ⟨lst, hfind⟩ := Option.isSome_iff_exists.mp hfindSome
  obtain ⟨ts1, hd1⟩ := applyDone_isSome form.tasksDone s.tasks hdone
  obtain ⟨hlen1, hids1, hpw1⟩ := applyDone_pointwise form.tasksDone s.tasks ts1 hd1
  have hsub : ((listTasks s lid).filter (fun t => !t.done)).Sublist s.tasks :=
    (List.filter_sublist _).trans (List.filter_sublist _)
  have hUN : (notDoneIds s lid).Nodup := by
    rw [notDoneIds]
    exact List.Nodup.sublist (List.Sublist.map _ hsub) hids
  have hUids : ∀ j (hjU : j < (notDoneIds s lid).length),
      (notDoneIds s lid)[j] ∈ s.tasks.map (·.id) := by
    intro j hjU
    obtain ⟨t, ht, hidt⟩ := List.mem_map.mp (List.getElem_mem hjU)
    exact List.mem_map.mpr ⟨t, hsub.subset ht, hidt⟩
  have hpres0 : ∀ j (hjU : j < (notDoneIds s lid).length),
      j < form.dueToDates.length → (notDoneIds s lid)[j] ∈ ts1.map (·.id) := by
    intro j hjU _
    rw [hids1]
    exact hUids j hjU
  obtain ⟨ts2, hloop, hlen2, hpres2, hmain2, hun2⟩ :=
    overwriteLoop_nodup_spec form.dueToDates (notDoneIds s lid) form.descriptions
      hFnd hUN hlenU hlenD hvalid form.dueToDates.length 0 (by omega) ts1 hpres0
  rw [List.drop_zero] at hloop
  have happly : applyOverwrites ts1 (notDoneIds s lid) form.dueToDates form.descriptions
      = some ts2 := hloop
  refine ⟨⟨s.users,
      s.lists.map (fun l => if l.id == lid then
        (match form.name with
          | some n => { lst with name := n }
          | none => lst) else l), ts2⟩,
    (ts2.filter (fun t => t.tasks_list == some lid)).all (·.done), ?_, ?_⟩
  · simp only [update_list, hfind, hd1, happly]
  · intro i hiF hiU hiD
    obtain ⟨t0, ht0, hid0⟩ := List.mem_map.mp (List.getElem_mem hiU)
    obtain ⟨ht0mem, hnd0⟩ := List.mem_filter.mp ht0
    obtain ⟨ht0tasks, hfk0⟩ := List.mem_filter.mp ht0mem
    obtain ⟨p, hp, hpe⟩ := List.getElem_of_mem ht0tasks
    have hp1 : p < ts1.length := by omega
    have hp2 : p < ts2.length := by omega
    have hgetp : s.tasks.get ⟨p, hp⟩ = t0 := by
      simp only [List.get_eq_getElem]
      exact hpe
    have hid1 : (ts1.get ⟨p, hp1⟩).id = (notDoneIds s lid)[i] := by
      rw [(hpw1 p hp hp1).1, hgetp]
      exact hid0
    obtain ⟨hdesc, hdlE, hdlNe⟩ :=
      hmain2 i (Nat.zero_le i) hiF hiU hiD p hp1 hp2 hid1
    obtain ⟨hpid, hpdone, -⟩ := hpres2 p hp1 hp2
    refine ⟨ts2.get ⟨p, hp2⟩, List.get_mem _ _ _, ?_, hdesc, hdlNe, ?_⟩
    · rw [hpid]
      exact hid1
    · intro hmemDone
      have hdone1 : (ts1.get ⟨p, hp1⟩).done = true := by
        refine (hpw1 p hp hp1).2 ?_
        rw [hgetp]
        exact hid0.symm ▸ hmemDone
      rw [hpdone, hdone1]

/-- C9 witness: on `storeA`, marking task 2 done while submitting the
distinct deadlines `["2024-01-01", "2024-01-02"]` and descriptions
`["a", "b"]`. -/
theorem C9_witness :
    ∃ s' flag, update_list storeA 1 formDistinct = .ok (s', flag) ∧
      ∀ i (hiF : i < formDistinct.dueToDates.length)
        (hiU : i < (notDoneIds storeA 1).length)
        (hiD : i < formDistinct.descriptions.length),
        ∃ t ∈ s'.tasks, t.id = (notDoneIds storeA 1)[i] ∧
          t.description = formDistinct.descriptions[i] ∧
          (formDistinct.dueToDates[i] ≠ "" → t.deadline = parseDate formDistinct.dueToDates[i]) ∧
          ((notDoneIds storeA 1)[i] ∈ formDistinct.tasksDone → t.done = true) :=
  C9_targets_computed_before_done storeA 1 formDistinct (by decide)
    ⟨{ id := 1, name := "L", author_id := some 1 }, by decide, rfl⟩
    (by decide) (by decide) (by decide) (by decide) (by decide)

end TodoApp
